import Mathlib

/-!
Shallow embedding of the job queue lifecycle store
(`src/agent/queue_manager.py`, class `QueueManager`).

The five JSON partition files become five lists of `Job` records inside a
`QueueState`.  Each public operation of the Python class becomes a pure
function from a state (plus the current time, passed explicitly as a natural
number, standing for `time.time()`) to a result paired with the new state.
Python dictionaries used for `result_details` become association lists with a
`dict.update`-style merge.
-/

namespace QueueMgr

/-- Association-list model of the Python `dict` used for `result_details`. -/
abbrev Dict := List (String × String)

/-- `d[k] = v`: replace the binding of `k` when present, else append. -/
def dictSet (d : Dict) (k v : String) : Dict :=
  if d.any (fun p => p.fst == k) then
    d.map (fun p => if p.fst == k then (k, v) else p)
  else d ++ [(k, v)]

/-- Python `old.update(new)`: every key of `new` is written into `old`. -/
def dictUpdate (old new : Dict) : Dict :=
  new.foldl (fun acc p => dictSet acc p.fst p.snd) old

/-- Lookup of a key in the association list. -/
def dictGet (d : Dict) (k : String) : Option String :=
  (d.find? (fun p => p.fst == k)).map (fun p => p.snd)

/-- A job record: the fields of the JSON job dictionaries that the queue
manager itself reads or writes.  `startProcessingTimestamp`,
`endProcessingTimestamp`, `lastErrorReason` and `resultDetails` model keys
that may be absent from the dictionary (`none` = key absent). -/
structure Job where
  id : String
  status : String
  attempts : Nat
  addedTimestamp : Nat
  startProcessingTimestamp : Option Nat
  endProcessingTimestamp : Option Nat
  lastErrorReason : Option String
  resultDetails : Option Dict
  deriving Repr, DecidableEq

/-- The five partitions (`queued_jobs.json`, `processing_jobs.json`,
`completed_jobs.json`, `failed_jobs.json`, `review_jobs.json`). -/
structure QueueState where
  queued : List Job
  processing : List Job
  completed : List Job
  failed : List Job
  review : List Job
  deriving Repr, DecidableEq

/-- All five partition files start out empty. -/
def initState : QueueState := ⟨[], [], [], [], []⟩

/-- `f"job_{int(time.time() * 1000)}"`: the id generated by `add_job` when
the incoming record has no id. -/
def genId (now : Nat) : String := "job_" ++ toString (now * 1000)

/-- The id under which a record is enqueued: the caller's id when truthy
(non-empty), else the generated one. -/
def effectiveId (jobData : Job) (now : Nat) : String :=
  if jobData.id = "" then genId now else jobData.id

/-- `QueueManager.add_job`: set `status`, `attempts`, `added_timestamp`
(generating an id first when missing), reject when the id already occurs in
the queued partition, else append to it. -/
def add_job (st : QueueState) (jobData : Job) (now : Nat) : Bool × QueueState :=
  let jid := effectiveId jobData now
  let j : Job := { jobData with
    id := jid, status := "queued", attempts := 0, addedTimestamp := now }
  if st.queued.any (fun q => q.id == jid) then (false, st)
  else (true, { st with queued := st.queued ++ [j] })

/-- `QueueManager.get_next_job`: pop the head of the queued partition
(FIFO), stamp it as processing, append it to the processing partition. -/
def get_next_job (st : QueueState) (now : Nat) : Option Job × QueueState :=
  match st.queued with
  | [] => (none, st)
  | j :: rest =>
    let j2 : Job := { j with
      status := "processing", startProcessingTimestamp := some now }
    (some j2, { st with queued := rest, processing := st.processing ++ [j2] })

/-- Pop the first record with the given id out of a list, keeping the order
of the rest (the linear scan + `pop(job_index)` of `_move_job` and of the
retry branch of `mark_job_failed`). -/
def extractJob (jid : String) : List Job → Option (Job × List Job)
  | [] => none
  | j :: rest =>
    if j.id == jid then some (j, rest)
    else match extractJob jid rest with
      | none => none
      | some (x, rest2) => some (x, j :: rest2)

/-- The record mutation performed by `_move_job` on the record it moves:
new status, `end_processing_timestamp = now`, and — only when the `details`
argument is truthy (not `None`, not the empty dict) — `result_details`
replaced by `details`. -/
def moveRecord (j : Job) (newStatus : String) (details : Option Dict)
    (now : Nat) : Job :=
  let j1 : Job := { j with
    status := newStatus, endProcessingTimestamp := some now }
  match details with
  | some d => if d.isEmpty then j1 else { j1 with resultDetails := some d }
  | none => j1

/-- `QueueManager.mark_job_complete` = `_move_job` from processing to
completed with status `"completed"`. -/
def mark_job_complete (st : QueueState) (jid : String) (details : Option Dict)
    (now : Nat) : Bool × QueueState :=
  match extractJob jid st.processing with
  | none => (false, st)
  | some (j, rest) =>
    (true,
      { st with
        processing := rest,
        completed := st.completed ++ [moveRecord j "completed" details now] })

/-- Python truthiness of an optional dict argument: `None` and the empty
dict act as the empty map. -/
def truthyDict : Option Dict → Dict
  | some x => x
  | none => []

/-- `QueueManager.mark_job_needs_review`: builds
`{'review_reason': reason}` merged with the truthy caller details, then
`_move_job` from processing to review with status `"needs_review"`. -/
def mark_job_needs_review (st : QueueState) (jid : String) (reason : String)
    (details : Option Dict) (now : Nat) : Bool × QueueState :=
  let jobDetails : Dict :=
    dictUpdate [("review_reason", reason)] (truthyDict details)
  match extractJob jid st.processing with
  | none => (false, st)
  | some (j, rest) =>
    (true,
      { st with
        processing := rest,
        review := st.review ++ [moveRecord j "needs_review" (some jobDetails) now] })

/-- The in-memory merge done by the first block of `mark_job_failed`:
when `details` is truthy, `result_details` becomes the existing map (or `{}`)
updated with `details`; otherwise the key is left as it was. -/
def mergeFailDetails (j : Job) (details : Option Dict) : Option Dict :=
  match details with
  | none => j.resultDetails
  | some d =>
    if d.isEmpty then j.resultDetails
    else some (dictUpdate (match j.resultDetails with
      | some r => r | none => []) d)

/-- `job.get('result_details', details)`: the details argument that the
permanent-failure branch of `mark_job_failed` hands to `_move_job` — the
merged map when the (in-memory) record carries the key, else the caller's
argument. -/
def passedDetails (j : Job) (details : Option Dict) : Option Dict :=
  match mergeFailDetails j details with
  | some d => some d
  | none => details

/-- `QueueManager.mark_job_failed`.  The first block looks the job up in the
processing partition (returning `False` when absent) and mutates an
in-memory copy (`last_error_reason`, merged `result_details`) without
writing it back.  When `retry` holds and `attempts < max_retries`, the
mutated copy — with `attempts + 1` and status `"queued"` — replaces the
processing record and is appended to the tail of the queued partition.
Otherwise `_move_job` moves the **unmodified on-disk record** to the failed
partition, passing `job.get('result_details', details)` as the details
argument; the in-memory `last_error_reason` is lost in that branch. -/
def mark_job_failed (st : QueueState) (jid : String) (reason : String)
    (details : Option Dict) (retry : Bool) (maxRetries : Nat) (now : Nat) :
    Bool × QueueState :=
  match extractJob jid st.processing with
  | none => (false, st)
  | some (j0, restP) =>
    if retry && decide (j0.attempts < maxRetries) then
      let j2 : Job := { j0 with
        lastErrorReason := some reason,
        resultDetails := mergeFailDetails j0 details,
        attempts := j0.attempts + 1, status := "queued" }
      (true, { st with processing := restP, queued := st.queued ++ [j2] })
    else
      (true,
        { st with
          processing := restP,
          failed := st.failed ++
            [moveRecord j0 "failed" (passedDetails j0 details) now] })

/-- The accumulation loop of `check_stale_processing_jobs`: collect the id of
every processing record whose truthy `start_processing_timestamp` lies more
than `threshold` seconds in the past (strict inequality). -/
def staleIds (now threshold : Nat) : List Job → List String
  | [] => []
  | j :: rest =>
    match j.startProcessingTimestamp with
    | some t =>
      if t ≠ 0 ∧ (threshold : Int) < (now : Int) - (t : Int) then
        j.id :: staleIds now threshold rest
      else staleIds now threshold rest
    | none => staleIds now threshold rest

/-- `QueueManager.check_stale_processing_jobs`: returns the stale ids and
(being read-only) the unchanged state. -/
def check_stale_processing_jobs (st : QueueState) (threshold : Nat)
    (now : Nat) : List String × QueueState :=
  (staleIds now threshold st.processing, st)

/-- One public mutating operation of the queue manager, with its explicit
current time. -/
inductive Op where
  | enqueue (jobData : Job) (now : Nat)
  | dequeue (now : Nat)
  | complete (jid : String) (details : Option Dict) (now : Nat)
  | fail (jid : String) (reason : String) (details : Option Dict)
      (retry : Bool) (maxRetries : Nat) (now : Nat)
  | flagForReview (jid : String) (reason : String) (details : Option Dict)
      (now : Nat)
  deriving Repr, DecidableEq

/-- The state transition of one operation (discarding the returned value). -/
def step (st : QueueState) : Op → QueueState
  | .enqueue j now => (add_job st j now).2
  | .dequeue now => (get_next_job st now).2
  | .complete jid d now => (mark_job_complete st jid d now).2
  | .fail jid r d rty mr now => (mark_job_failed st jid r d rty mr now).2
  | .flagForReview jid r d now => (mark_job_needs_review st jid r d now).2

/-- Run a sequence of operations from a state. -/
def run (st : QueueState) (ops : List Op) : QueueState := ops.foldl step st

/-- Every record of the store, queued partition first. -/
def allJobs (st : QueueState) : List Job :=
  st.queued ++ st.processing ++ st.completed ++ st.failed ++ st.review

/-- Every id of the store. -/
def allIds (st : QueueState) : List String := (allJobs st).map Job.id

/-- Invariant I1: no id occurs twice across the union of the partitions. -/
def uniqueIds (st : QueueState) : Prop := (allIds st).Nodup

/-- The first record carrying the given id, scanning the partitions in the
order queued, processing, completed, failed, review. -/
def findJob (st : QueueState) (jid : String) : Option Job :=
  (allJobs st).find? (fun j => j.id == jid)

/-- The `attempts` counter of the record carrying the given id. -/
def attemptsOf (st : QueueState) (jid : String) : Option Nat :=
  (findJob st jid).map Job.attempts

/-- Whether the id already occurs outside the queued partition (the part of
the duplicate check that `add_job` does **not** perform). -/
def idElsewhere (st : QueueState) (jid : String) : Bool :=
  (st.processing ++ st.completed ++ st.failed ++ st.review).any
    (fun j => j.id == jid)

/-- An operation is id-fresh at a state when, in case it is an enqueue, its
effective id does not already occur outside the queued partition. -/
def enqFresh (st : QueueState) : Op → Bool
  | .enqueue j now => !(idElsewhere st (effectiveId j now))
  | _ => true

/-- A trace is safe when every enqueue along it is id-fresh at the state
where it executes. -/
def safeTrace : QueueState → List Op → Bool
  | _, [] => true
  | st, op :: rest => enqFresh st op && safeTrace (step st op) rest

instance (st : QueueState) : Decidable (uniqueIds st) :=
  List.nodupDecidable (allIds st)

/-! ### Basic facts about `extractJob` and `find?` on job lists -/

theorem extractJob_id_perm {jid : String} {l rest : List Job} {j : Job}
    (h : extractJob jid l = some (j, rest)) :
    j.id = jid ∧ l.Perm (j :: rest) := by
  induction l generalizing rest with
  | nil => simp [extractJob] at h
  | cons a tail ih =>
    rw [extractJob] at h
    split at h
    · rename_i ha
      obtain ⟨rfl, rfl⟩ : a = j ∧ tail = rest := by simpa using h
      exact ⟨by simpa using ha, List.Perm.refl _⟩
    · split at h
      · simp at h
      · rename_i x rest2 hx
        obtain ⟨rfl, rfl⟩ : x = j ∧ a :: rest2 = rest := by simpa using h
        obtain ⟨hid, hperm⟩ := ih hx
        exact ⟨hid, (hperm.cons a).trans (List.Perm.swap _ _ _)⟩

theorem extractJob_eq_none {jid : String} {l : List Job} :
    extractJob jid l = none ↔ ∀ j ∈ l, j.id ≠ jid := by
  induction l with
  | nil => simp [extractJob]
  | cons a tail ih =>
    rw [extractJob]
    by_cases ha : (a.id == jid) = true
    · have ha' : a.id = jid := by simpa using ha
      simp [ha, ha']
    · have ha' : a.id ≠ jid := by simpa using ha
      rw [if_neg ha]
      cases hx : extractJob jid tail with
      | none =>
        constructor
        · intro _ j hj
          rcases List.mem_cons.mp hj with h1 | h1
          · rw [h1]; exact ha'
          · exact ih.mp hx j h1
        · intro _; rfl
      | some pr =>
        obtain ⟨x, rest2⟩ := pr
        simp only [hx]
        constructor
        · intro h; simp at h
        · intro hall
          obtain ⟨hid, hperm⟩ := extractJob_id_perm hx
          have hxm : x ∈ tail := hperm.mem_iff.mpr (List.mem_cons_self _ _)
          exact absurd hid (hall x (List.mem_cons_of_mem _ hxm))

theorem findP_eq_none_iff {l : List Job} {jid : String} :
    l.find? (fun x => x.id == jid) = none ↔ ∀ j ∈ l, j.id ≠ jid := by
  rw [List.find?_eq_none]
  simp

theorem findP_eq_some_iff {l : List Job} (hnd : (l.map Job.id).Nodup)
    {jid : String} {j : Job} :
    l.find? (fun x => x.id == jid) = some j ↔ j ∈ l ∧ j.id = jid := by
  constructor
  · intro h
    exact ⟨List.mem_of_find?_eq_some h, by simpa using List.find?_some h⟩
  · rintro ⟨hm, hid⟩
    cases hf : l.find? (fun x => x.id == jid) with
    | none =>
      rw [findP_eq_none_iff] at hf
      exact absurd hid (hf j hm)
    | some y =>
      have h1 : y.id = jid := by simpa using List.find?_some hf
      have h2 : y ∈ l := List.mem_of_find?_eq_some hf
      have : y = j := List.inj_on_of_nodup_map hnd h2 hm (by rw [h1, hid])
      rw [← this]

/-! ### Core lemmas about moving or inserting one record -/

/-- Consequences of a state change that replaces one record `j` by a record
`j2` with the same id, leaving the rest of the store (as a multiset) alone:
uniqueness is preserved, lookups at the moved id see the old/new record, and
every other lookup is unchanged. -/
theorem move_core {st st2 : QueueState} {j j2 : Job} {M : List Job}
    (hA : (allJobs st).Perm (j :: M)) (hB : (allJobs st2).Perm (j2 :: M))
    (hid : j2.id = j.id) (hnd : uniqueIds st) :
    uniqueIds st2 ∧ findJob st j.id = some j ∧ findJob st2 j.id = some j2 ∧
      ∀ x, x ≠ j.id → findJob st2 x = findJob st x := by
  have hndA : ((j :: M).map Job.id).Nodup := (hA.map Job.id).nodup_iff.mp hnd
  have hndB : ((j2 :: M).map Job.id).Nodup := by
    simpa [hid] using hndA
  have hnd2 : uniqueIds st2 := (hB.map Job.id).nodup_iff.mpr hndB
  have hstA : ((allJobs st).map Job.id).Nodup := hnd
  have hstB : ((allJobs st2).map Job.id).Nodup := hnd2
  refine ⟨hnd2, ?_, ?_, ?_⟩
  · exact (findP_eq_some_iff hstA).mpr
      ⟨hA.mem_iff.mpr (List.mem_cons_self _ _), rfl⟩
  · exact (findP_eq_some_iff hstB).mpr
      ⟨hB.mem_iff.mpr (List.mem_cons_self _ _), hid⟩
  · intro x hx
    by_cases hex : ∃ y ∈ M, y.id = x
    · obtain ⟨y, hyM, hyx⟩ := hex
      have hy1 : y ∈ allJobs st := hA.mem_iff.mpr (List.mem_cons_of_mem _ hyM)
      have hy2 : y ∈ allJobs st2 := hB.mem_iff.mpr (List.mem_cons_of_mem _ hyM)
      rw [findJob, (findP_eq_some_iff hstB).mpr ⟨hy2, hyx⟩,
        findJob, (findP_eq_some_iff hstA).mpr ⟨hy1, hyx⟩]
    · push_neg at hex
      have hnone1 : findJob st x = none := by
        rw [findJob, findP_eq_none_iff]
        intro y hy
        rcases List.mem_cons.mp (hA.mem_iff.mp hy) with h1 | h1
        · subst h1; exact fun hc => hx hc.symm
        · exact hex y h1
      have hnone2 : findJob st2 x = none := by
        rw [findJob, findP_eq_none_iff]
        intro y hy
        rcases List.mem_cons.mp (hB.mem_iff.mp hy) with h1 | h1
        · subst h1; rw [hid]; exact fun hc => hx hc.symm
        · exact hex y h1
      rw [hnone1, hnone2]

/-- Consequences of inserting one record with an id fresh for the whole
store: uniqueness is preserved, the new id is found, other lookups keep
their value. -/
theorem insert_core {st st2 : QueueState} {jn : Job}
    (hB : (allJobs st2).Perm (jn :: allJobs st))
    (hfresh : jn.id ∉ allIds st) (hnd : uniqueIds st) :
    uniqueIds st2 ∧ findJob st2 jn.id = some jn ∧
      ∀ x, x ≠ jn.id → findJob st2 x = findJob st x := by
  have hndB : ((jn :: allJobs st).map Job.id).Nodup := by
    simpa [allIds] using List.Nodup.cons (by simpa [allIds] using hfresh) hnd
  have hnd2 : uniqueIds st2 := (hB.map Job.id).nodup_iff.mpr hndB
  have hstB : ((allJobs st2).map Job.id).Nodup := hnd2
  refine ⟨hnd2, ?_, ?_⟩
  · exact (findP_eq_some_iff hstB).mpr
      ⟨hB.mem_iff.mpr (List.mem_cons_self _ _), rfl⟩
  · intro x hx
    by_cases hex : ∃ y ∈ allJobs st, y.id = x
    · obtain ⟨y, hyM, hyx⟩ := hex
      have hy2 : y ∈ allJobs st2 := hB.mem_iff.mpr (List.mem_cons_of_mem _ hyM)
      rw [findJob, (findP_eq_some_iff hstB).mpr ⟨hy2, hyx⟩,
        findJob, (findP_eq_some_iff (l := allJobs st) hnd).mpr ⟨hyM, hyx⟩]
    · push_neg at hex
      have hnone1 : findJob st x = none := by
        rw [findJob, findP_eq_none_iff]; exact hex
      have hnone2 : findJob st2 x = none := by
        rw [findJob, findP_eq_none_iff]
        intro y hy
        rcases List.mem_cons.mp (hB.mem_iff.mp hy) with h1 | h1
        · subst h1; exact fun hc => hx hc.symm
        · exact hex y h1
      rw [hnone1, hnone2]

/-! ### Branch equations for the operations -/

theorem add_job_dup {st : QueueState} {jobData : Job} {now : Nat}
    (h : st.queued.any (fun q => q.id == effectiveId jobData now) = true) :
    add_job st jobData now = (false, st) := by
  simp [add_job, h]

theorem add_job_fresh {st : QueueState} {jobData : Job} {now : Nat}
    (h : st.queued.any (fun q => q.id == effectiveId jobData now) = false) :
    add_job st jobData now =
      (true, { st with
        queued := st.queued ++
          [{ jobData with
              id := effectiveId jobData now, status := "queued",
              attempts := 0, addedTimestamp := now }] }) := by
  simp [add_job, h]

theorem get_next_job_nil {st : QueueState} {now : Nat} (h : st.queued = []) :
    get_next_job st now = (none, st) := by
  simp [get_next_job, h]

theorem get_next_job_cons {st : QueueState} {j : Job} {restQ : List Job}
    (now : Nat) (h : st.queued = j :: restQ) :
    get_next_job st now =
      (some { j with
        status := "processing",
        startProcessingTimestamp := some now },
       { st with
        queued := restQ,
        processing := st.processing ++
          [{ j with
              status := "processing",
              startProcessingTimestamp := some now }] }) := by
  simp [get_next_job, h]

theorem mark_job_complete_none {st : QueueState} {jid : String}
    (d : Option Dict) (now : Nat) (h : extractJob jid st.processing = none) :
    mark_job_complete st jid d now = (false, st) := by
  simp [mark_job_complete, h]

theorem mark_job_complete_some {st : QueueState} {jid : String} {j : Job}
    {rest : List Job} (d : Option Dict) (now : Nat)
    (h : extractJob jid st.processing = some (j, rest)) :
    mark_job_complete st jid d now =
      (true, { st with
        processing := rest,
        completed := st.completed ++ [moveRecord j "completed" d now] }) := by
  simp [mark_job_complete, h]

theorem mark_job_needs_review_none {st : QueueState} {jid : String}
    (reason : String) (d : Option Dict) (now : Nat)
    (h : extractJob jid st.processing = none) :
    mark_job_needs_review st jid reason d now = (false, st) := by
  simp [mark_job_needs_review, h]

theorem mark_job_needs_review_some {st : QueueState} {jid : String} {j : Job}
    {rest : List Job} (reason : String) (d : Option Dict) (now : Nat)
    (h : extractJob jid st.processing = some (j, rest)) :
    mark_job_needs_review st jid reason d now =
      (true, { st with
        processing := rest,
        review := st.review ++
          [moveRecord j "needs_review"
            (some (dictUpdate [("review_reason", reason)]
              (truthyDict d))) now] }) := by
  simp [mark_job_needs_review, h]

theorem mark_job_failed_none {st : QueueState} {jid : String}
    (reason : String) (d : Option Dict) (retry : Bool) (mr now : Nat)
    (h : extractJob jid st.processing = none) :
    mark_job_failed st jid reason d retry mr now = (false, st) := by
  simp [mark_job_failed, h]

theorem mark_job_failed_retry {st : QueueState} {jid : String}
    (reason : String) (d : Option Dict) (now : Nat) {mr : Nat} {j0 : Job}
    {restP : List Job}
    (h : extractJob jid st.processing = some (j0, restP))
    (hlt : j0.attempts < mr) :
    mark_job_failed st jid reason d true mr now =
      (true, { st with
        processing := restP,
        queued := st.queued ++
          [{ j0 with
              lastErrorReason := some reason,
              resultDetails := mergeFailDetails j0 d,
              attempts := j0.attempts + 1, status := "queued" }] }) := by
  simp [mark_job_failed, h, hlt]

theorem mark_job_failed_perm {st : QueueState} {jid : String}
    (reason : String) (d : Option Dict) (retry : Bool) (mr now : Nat)
    {j0 : Job} {restP : List Job}
    (h : extractJob jid st.processing = some (j0, restP))
    (hc : (retry && decide (j0.attempts < mr)) = false) :
    mark_job_failed st jid reason d retry mr now =
      (true, { st with
        processing := restP,
        failed := st.failed ++
          [moveRecord j0 "failed" (passedDetails j0 d) now] }) := by
  simp only [mark_job_failed, h, hc]
  simp

/-! ### Field equations for `moveRecord` -/

@[simp] theorem moveRecord_id (j : Job) (s : String) (d : Option Dict)
    (now : Nat) : (moveRecord j s d now).id = j.id := by
  rw [moveRecord.eq_def]
  cases d with
  | none => rfl
  | some x => by_cases hx : x.isEmpty <;> simp [hx]

@[simp] theorem moveRecord_attempts (j : Job) (s : String) (d : Option Dict)
    (now : Nat) : (moveRecord j s d now).attempts = j.attempts := by
  rw [moveRecord.eq_def]
  cases d with
  | none => rfl
  | some x => by_cases hx : x.isEmpty <;> simp [hx]

@[simp] theorem moveRecord_status (j : Job) (s : String) (d : Option Dict)
    (now : Nat) : (moveRecord j s d now).status = s := by
  rw [moveRecord.eq_def]
  cases d with
  | none => rfl
  | some x => by_cases hx : x.isEmpty <;> simp [hx]

@[simp] theorem moveRecord_endTs (j : Job) (s : String) (d : Option Dict)
    (now : Nat) : (moveRecord j s d now).endProcessingTimestamp = some now := by
  rw [moveRecord.eq_def]
  cases d with
  | none => rfl
  | some x => by_cases hx : x.isEmpty <;> simp [hx]

@[simp] theorem moveRecord_startTs (j : Job) (s : String) (d : Option Dict)
    (now : Nat) :
    (moveRecord j s d now).startProcessingTimestamp =
      j.startProcessingTimestamp := by
  rw [moveRecord.eq_def]
  cases d with
  | none => rfl
  | some x => by_cases hx : x.isEmpty <;> simp [hx]

@[simp] theorem moveRecord_lastError (j : Job) (s : String) (d : Option Dict)
    (now : Nat) : (moveRecord j s d now).lastErrorReason = j.lastErrorReason := by
  rw [moveRecord.eq_def]
  cases d with
  | none => rfl
  | some x => by_cases hx : x.isEmpty <;> simp [hx]

theorem moveRecord_result (j : Job) (s : String) (d : Dict) (now : Nat)
    (hd : d ≠ []) : (moveRecord j s (some d) now).resultDetails = some d := by
  rw [moveRecord.eq_def]
  simp [List.isEmpty_iff, hd]

/-! ### Per-operation core facts (uniqueness and lookups) -/

theorem enqueue_core {st : QueueState} {jobData : Job} {now : Nat}
    (hq : st.queued.any (fun q => q.id == effectiveId jobData now) = false)
    (hf : idElsewhere st (effectiveId jobData now) = false)
    (hnd : uniqueIds st) :
    uniqueIds ((add_job st jobData now).2) ∧
    findJob st (effectiveId jobData now) = none ∧
    findJob ((add_job st jobData now).2) (effectiveId jobData now) =
      some { jobData with
        id := effectiveId jobData now, status := "queued",
        attempts := 0, addedTimestamp := now } ∧
    ∀ x, x ≠ effectiveId jobData now →
      findJob ((add_job st jobData now).2) x = findJob st x := by
  have heq := add_job_fresh hq
  have hq' : ∀ y ∈ st.queued, ¬ (y.id == effectiveId jobData now) = true :=
    List.any_eq_false.mp hq
  rw [idElsewhere] at hf
  have hf' : ∀ y ∈ st.processing ++ st.completed ++ st.failed ++ st.review,
      ¬ (y.id == effectiveId jobData now) = true := List.any_eq_false.mp hf
  have hall : ∀ y ∈ allJobs st, y.id ≠ effectiveId jobData now := by
    intro y hy
    have hy2 : y ∈ st.queued ∨
        (y ∈ st.processing ∨ y ∈ st.completed ∨ y ∈ st.failed ∨
          y ∈ st.review) := by
      simpa [allJobs, List.mem_append, or_assoc] using hy
    rcases hy2 with h | h
    · intro hc; exact hq' y h (by simp [hc])
    · intro hc
      refine hf' y ?_ (by simp [hc])
      simp [List.mem_append, or_assoc]
      tauto
  have hfresh : effectiveId jobData now ∉ allIds st := by
    intro hmem
    obtain ⟨y, hy, hyid⟩ := List.mem_map.mp hmem
    exact hall y hy hyid
  have hB : (allJobs ((add_job st jobData now).2)).Perm
      ({ jobData with
        id := effectiveId jobData now, status := "queued",
        attempts := 0, addedTimestamp := now } :: allJobs st) := by
    rw [heq]
    simp only [allJobs]
    rw [← Multiset.coe_eq_coe]
    simp only [← Multiset.coe_add, ← Multiset.cons_coe,
      ← Multiset.singleton_add, Multiset.coe_nil]
    abel
  obtain ⟨h1, h2, h3⟩ := insert_core hB hfresh hnd
  refine ⟨h1, ?_, h2, h3⟩
  rw [findJob, findP_eq_none_iff]
  exact hall

theorem dequeue_core {st : QueueState} {j : Job} {restQ : List Job}
    (now : Nat) (hq : st.queued = j :: restQ) (hnd : uniqueIds st) :
    uniqueIds ((get_next_job st now).2) ∧
    findJob st j.id = some j ∧
    findJob ((get_next_job st now).2) j.id =
      some { j with
        status := "processing", startProcessingTimestamp := some now } ∧
    ∀ x, x ≠ j.id → findJob ((get_next_job st now).2) x = findJob st x := by
  have heq := get_next_job_cons now hq
  have hA : (allJobs st).Perm
      (j :: (restQ ++ st.processing ++ st.completed ++ st.failed ++
        st.review)) := by
    rw [allJobs, hq, ← Multiset.coe_eq_coe]
    simp only [← Multiset.coe_add, ← Multiset.cons_coe,
      ← Multiset.singleton_add, Multiset.coe_nil]
    abel
  have hB : (allJobs ((get_next_job st now).2)).Perm
      ({ j with
        status := "processing", startProcessingTimestamp := some now } ::
        (restQ ++ st.processing ++ st.completed ++ st.failed ++
          st.review)) := by
    rw [heq]
    simp only [allJobs]
    rw [← Multiset.coe_eq_coe]
    simp only [← Multiset.coe_add, ← Multiset.cons_coe,
      ← Multiset.singleton_add, Multiset.coe_nil]
    abel
  exact move_core hA hB rfl hnd

theorem complete_core {st : QueueState} {jid : String} {j : Job}
    {rest : List Job} (d : Option Dict) (now : Nat)
    (h : extractJob jid st.processing = some (j, rest)) (hnd : uniqueIds st) :
    uniqueIds ((mark_job_complete st jid d now).2) ∧
    findJob st j.id = some j ∧
    findJob ((mark_job_complete st jid d now).2) j.id =
      some (moveRecord j "completed" d now) ∧
    ∀ x, x ≠ j.id →
      findJob ((mark_job_complete st jid d now).2) x = findJob st x := by
  have heq := mark_job_complete_some d now h
  have hp : (st.processing : Multiset Job) = j ::ₘ (rest : Multiset Job) := by
    have := (extractJob_id_perm h).2
    rw [← Multiset.coe_eq_coe] at this
    simpa [← Multiset.cons_coe] using this
  have hA : (allJobs st).Perm
      (j :: (st.queued ++ rest ++ st.completed ++ st.failed ++ st.review)) := by
    rw [allJobs, ← Multiset.coe_eq_coe]
    simp only [← Multiset.coe_add, ← Multiset.cons_coe,
      ← Multiset.singleton_add, Multiset.coe_nil]
    rw [hp]
    simp only [← Multiset.singleton_add]
    abel
  have hB : (allJobs ((mark_job_complete st jid d now).2)).Perm
      (moveRecord j "completed" d now ::
        (st.queued ++ rest ++ st.completed ++ st.failed ++ st.review)) := by
    rw [heq]
    simp only [allJobs]
    rw [← Multiset.coe_eq_coe]
    simp only [← Multiset.coe_add, ← Multiset.cons_coe,
      ← Multiset.singleton_add, Multiset.coe_nil]
    abel
  exact move_core hA hB (moveRecord_id j "completed" d now) hnd

theorem review_core {st : QueueState} {jid : String} (reason : String)
    {j : Job} {rest : List Job} (d : Option Dict) (now : Nat)
    (h : extractJob jid st.processing = some (j, rest)) (hnd : uniqueIds st) :
    uniqueIds ((mark_job_needs_review st jid reason d now).2) ∧
    findJob st j.id = some j ∧
    findJob ((mark_job_needs_review st jid reason d now).2) j.id =
      some (moveRecord j "needs_review"
        (some (dictUpdate [("review_reason", reason)]
          (truthyDict d))) now) ∧
    ∀ x, x ≠ j.id →
      findJob ((mark_job_needs_review st jid reason d now).2) x =
        findJob st x := by
  have heq := mark_job_needs_review_some reason d now h
  have hp : (st.processing : Multiset Job) = j ::ₘ (rest : Multiset Job) := by
    have := (extractJob_id_perm h).2
    rw [← Multiset.coe_eq_coe] at this
    simpa [← Multiset.cons_coe] using this
  have hA : (allJobs st).Perm
      (j :: (st.queued ++ rest ++ st.completed ++ st.failed ++ st.review)) := by
    rw [allJobs, ← Multiset.coe_eq_coe]
    simp only [← Multiset.coe_add, ← Multiset.cons_coe,
      ← Multiset.singleton_add, Multiset.coe_nil]
    rw [hp]
    simp only [← Multiset.singleton_add]
    abel
  have hB : (allJobs ((mark_job_needs_review st jid reason d now).2)).Perm
      (moveRecord j "needs_review"
        (some (dictUpdate [("review_reason", reason)]
          (truthyDict d))) now ::
        (st.queued ++ rest ++ st.completed ++ st.failed ++ st.review)) := by
    rw [heq]
    simp only [allJobs]
    rw [← Multiset.coe_eq_coe]
    simp only [← Multiset.coe_add, ← Multiset.cons_coe,
      ← Multiset.singleton_add, Multiset.coe_nil]
    abel
  exact move_core hA hB (moveRecord_id _ _ _ _) hnd

theorem fail_retry_core {st : QueueState} {jid : String} (reason : String)
    (d : Option Dict) (now : Nat) {j0 : Job} {restP : List Job} {mr : Nat}
    (h : extractJob jid st.processing = some (j0, restP))
    (hlt : j0.attempts < mr) (hnd : uniqueIds st) :
    uniqueIds ((mark_job_failed st jid reason d true mr now).2) ∧
    findJob st j0.id = some j0 ∧
    findJob ((mark_job_failed st jid reason d true mr now).2) j0.id =
      some { j0 with
        lastErrorReason := some reason,
        resultDetails := mergeFailDetails j0 d,
        attempts := j0.attempts + 1, status := "queued" } ∧
    ∀ x, x ≠ j0.id →
      findJob ((mark_job_failed st jid reason d true mr now).2) x =
        findJob st x := by
  have heq := mark_job_failed_retry reason d now h hlt
  have hp : (st.processing : Multiset Job) = j0 ::ₘ (restP : Multiset Job) := by
    have := (extractJob_id_perm h).2
    rw [← Multiset.coe_eq_coe] at this
    simpa [← Multiset.cons_coe] using this
  have hA : (allJobs st).Perm
      (j0 :: (st.queued ++ restP ++ st.completed ++ st.failed ++
        st.review)) := by
    rw [allJobs, ← Multiset.coe_eq_coe]
    simp only [← Multiset.coe_add, ← Multiset.cons_coe,
      ← Multiset.singleton_add, Multiset.coe_nil]
    rw [hp]
    simp only [← Multiset.singleton_add]
    abel
  have hB : (allJobs ((mark_job_failed st jid reason d true mr now).2)).Perm
      ({ j0 with
        lastErrorReason := some reason,
        resultDetails := mergeFailDetails j0 d,
        attempts := j0.attempts + 1, status := "queued" } ::
        (st.queued ++ restP ++ st.completed ++ st.failed ++ st.review)) := by
    rw [heq]
    simp only [allJobs]
    rw [← Multiset.coe_eq_coe]
    simp only [← Multiset.coe_add, ← Multiset.cons_coe,
      ← Multiset.singleton_add, Multiset.coe_nil]
    abel
  exact move_core hA hB rfl hnd

theorem fail_perm_core {st : QueueState} {jid : String} (reason : String)
    (d : Option Dict) (retry : Bool) (mr now : Nat) {j0 : Job}
    {restP : List Job}
    (h : extractJob jid st.processing = some (j0, restP))
    (hc : (retry && decide (j0.attempts < mr)) = false) (hnd : uniqueIds st) :
    uniqueIds ((mark_job_failed st jid reason d retry mr now).2) ∧
    findJob st j0.id = some j0 ∧
    findJob ((mark_job_failed st jid reason d retry mr now).2) j0.id =
      some (moveRecord j0 "failed" (passedDetails j0 d) now) ∧
    ∀ x, x ≠ j0.id →
      findJob ((mark_job_failed st jid reason d retry mr now).2) x =
        findJob st x := by
  have heq := mark_job_failed_perm reason d retry mr now h hc
  have hp : (st.processing : Multiset Job) = j0 ::ₘ (restP : Multiset Job) := by
    have := (extractJob_id_perm h).2
    rw [← Multiset.coe_eq_coe] at this
    simpa [← Multiset.cons_coe] using this
  have hA : (allJobs st).Perm
      (j0 :: (st.queued ++ restP ++ st.completed ++ st.failed ++
        st.review)) := by
    rw [allJobs, ← Multiset.coe_eq_coe]
    simp only [← Multiset.coe_add, ← Multiset.cons_coe,
      ← Multiset.singleton_add, Multiset.coe_nil]
    rw [hp]
    simp only [← Multiset.singleton_add]
    abel
  have hB : (allJobs ((mark_job_failed st jid reason d retry mr now).2)).Perm
      (moveRecord j0 "failed" (passedDetails j0 d) now ::
        (st.queued ++ restP ++ st.completed ++ st.failed ++ st.review)) := by
    rw [heq]
    simp only [allJobs]
    rw [← Multiset.coe_eq_coe]
    simp only [← Multiset.coe_add, ← Multiset.cons_coe,
      ← Multiset.singleton_add, Multiset.coe_nil]
    abel
  exact move_core hA hB (moveRecord_id _ _ _ _) hnd

/-! ### Preservation of uniqueness along safe traces -/

theorem step_unique {st : QueueState} {op : Op} (hnd : uniqueIds st)
    (hf : enqFresh st op = true) : uniqueIds (step st op) := by
  cases op with
  | enqueue jobData now =>
    by_cases hq : st.queued.any (fun q => q.id == effectiveId jobData now) =
        true
    · have : step st (Op.enqueue jobData now) = st := by
        simp [step, add_job_dup hq]
      rw [this]; exact hnd
    · have hq' := eq_false_of_ne_true hq
      have hf' : idElsewhere st (effectiveId jobData now) = false := by
        have : (!idElsewhere st (effectiveId jobData now)) = true := hf
        simpa using this
      exact (enqueue_core hq' hf' hnd).1
  | dequeue now =>
    cases hq : st.queued with
    | nil =>
      have : step st (Op.dequeue now) = st := by
        simp [step, get_next_job_nil hq]
      rw [this]; exact hnd
    | cons j restQ => exact (dequeue_core now hq hnd).1
  | complete jid d now =>
    cases hx : extractJob jid st.processing with
    | none =>
      have : step st (Op.complete jid d now) = st := by
        simp [step, mark_job_complete_none d now hx]
      rw [this]; exact hnd
    | some pr =>
      obtain ⟨j, rest⟩ := pr
      exact (complete_core d now hx hnd).1
  | fail jid r d retry mr now =>
    cases hx : extractJob jid st.processing with
    | none =>
      have : step st (Op.fail jid r d retry mr now) = st := by
        simp [step, mark_job_failed_none r d retry mr now hx]
      rw [this]; exact hnd
    | some pr =>
      obtain ⟨j0, restP⟩ := pr
      by_cases hc : (retry && decide (j0.attempts < mr)) = true
      · rw [Bool.and_eq_true, decide_eq_true_eq] at hc
        obtain ⟨hr, hlt⟩ := hc
        subst hr
        exact (fail_retry_core r d now hx hlt hnd).1
      · exact (fail_perm_core r d retry mr now hx (eq_false_of_ne_true hc) hnd).1
  | flagForReview jid r d now =>
    cases hx : extractJob jid st.processing with
    | none =>
      have : step st (Op.flagForReview jid r d now) = st := by
        simp [step, mark_job_needs_review_none r d now hx]
      rw [this]; exact hnd
    | some pr =>
      obtain ⟨j, rest⟩ := pr
      exact (review_core r d now hx hnd).1

theorem run_unique {ops : List Op} {st : QueueState} (hnd : uniqueIds st)
    (hs : safeTrace st ops = true) : uniqueIds (run st ops) := by
  induction ops generalizing st with
  | nil => exact hnd
  | cons op rest ih =>
    rw [safeTrace, Bool.and_eq_true] at hs
    exact ih (step_unique hnd hs.1) hs.2

theorem safeTrace_append_left {pre suf : List Op} {st : QueueState}
    (h : safeTrace st (pre ++ suf) = true) : safeTrace st pre = true := by
  induction pre generalizing st with
  | nil => rfl
  | cons op rest ih =>
    rw [List.cons_append, safeTrace, Bool.and_eq_true] at h
    rw [safeTrace, Bool.and_eq_true]
    exact ⟨h.1, ih h.2⟩

/-! ### Evolution of the `attempts` counter under each operation -/

theorem deq_attempts {st : QueueState} (hnd : uniqueIds st) (now : Nat)
    (x : String) :
    attemptsOf ((get_next_job st now).2) x = attemptsOf st x := by
  cases hq : st.queued with
  | nil => rw [get_next_job_nil hq]
  | cons j restQ =>
    obtain ⟨h1, h2, h3, h4⟩ := dequeue_core now hq hnd
    by_cases hx : x = j.id
    · subst hx; rw [attemptsOf, attemptsOf, h2, h3]; rfl
    · rw [attemptsOf, attemptsOf, h4 x hx]

theorem complete_attempts {st : QueueState} (hnd : uniqueIds st)
    (jid : String) (d : Option Dict) (now : Nat) (x : String) :
    attemptsOf ((mark_job_complete st jid d now).2) x = attemptsOf st x := by
  cases hx : extractJob jid st.processing with
  | none => rw [mark_job_complete_none d now hx]
  | some pr =>
    obtain ⟨j, rest⟩ := pr
    obtain ⟨h1, h2, h3, h4⟩ := complete_core d now hx hnd
    by_cases hxx : x = j.id
    · subst hxx
      rw [attemptsOf, attemptsOf, h2, h3]
      simp
    · rw [attemptsOf, attemptsOf, h4 x hxx]

theorem review_attempts {st : QueueState} (hnd : uniqueIds st)
    (jid r : String) (d : Option Dict) (now : Nat) (x : String) :
    attemptsOf ((mark_job_needs_review st jid r d now).2) x =
      attemptsOf st x := by
  cases hx : extractJob jid st.processing with
  | none => rw [mark_job_needs_review_none r d now hx]
  | some pr =>
    obtain ⟨j, rest⟩ := pr
    obtain ⟨h1, h2, h3, h4⟩ := review_core r d now hx hnd
    by_cases hxx : x = j.id
    · subst hxx
      rw [attemptsOf, attemptsOf, h2, h3]
      simp
    · rw [attemptsOf, attemptsOf, h4 x hxx]

theorem fail_false_attempts {st : QueueState} (hnd : uniqueIds st)
    (jid r : String) (d : Option Dict) (mr now : Nat) (x : String) :
    attemptsOf ((mark_job_failed st jid r d false mr now).2) x =
      attemptsOf st x := by
  cases hx : extractJob jid st.processing with
  | none => rw [mark_job_failed_none r d false mr now hx]
  | some pr =>
    obtain ⟨j0, restP⟩ := pr
    obtain ⟨h1, h2, h3, h4⟩ := fail_perm_core r d false mr now hx (Bool.false_and _) hnd
    by_cases hxx : x = j0.id
    · subst hxx
      rw [attemptsOf, attemptsOf, h2, h3]
      simp
    · rw [attemptsOf, attemptsOf, h4 x hxx]

theorem fail_retry_attempts {st : QueueState} (hnd : uniqueIds st)
    {jid : String} (r : String) (d : Option Dict) {j0 : Job}
    {restP : List Job} {mr : Nat} (now : Nat)
    (h : extractJob jid st.processing = some (j0, restP))
    (hlt : j0.attempts < mr) :
    attemptsOf st jid = some j0.attempts ∧
    attemptsOf ((mark_job_failed st jid r d true mr now).2) jid =
      some (j0.attempts + 1) ∧
    ∀ x, x ≠ jid →
      attemptsOf ((mark_job_failed st jid r d true mr now).2) x =
        attemptsOf st x := by
  obtain ⟨hid, -⟩ := extractJob_id_perm h
  subst hid
  obtain ⟨h1, h2, h3, h4⟩ := fail_retry_core r d now h hlt hnd
  refine ⟨?_, ?_, ?_⟩
  · rw [attemptsOf, h2]
    rfl
  · rw [attemptsOf, h3]
    rfl
  · intro x hx
    rw [attemptsOf, attemptsOf, h4 x hx]

theorem add_attempts_zero {st : QueueState} {jobData : Job} {now : Nat}
    (h : (add_job st jobData now).1 = true) :
    attemptsOf ((add_job st jobData now).2) (effectiveId jobData now) =
      some 0 := by
  by_cases hq : st.queued.any (fun q => q.id == effectiveId jobData now) = true
  · rw [add_job_dup hq] at h
    simp at h
  · have hq' := eq_false_of_ne_true hq
    rw [add_job_fresh hq']
    have hqnone : st.queued.find?
        (fun q => q.id == effectiveId jobData now) = none := by
      rw [findP_eq_none_iff]
      intro y hy hc
      exact (List.any_eq_false.mp hq' y hy) (by simp [hc])
    rw [attemptsOf, findJob, allJobs]
    simp only [List.append_assoc]
    rw [List.find?_append, hqnone]
    simp

/-! ### Sample records and traces used by witnesses and counterexamples -/

def sampleA : Job := ⟨"A", "", 0, 0, none, none, none, none⟩

def sampleB : Job := ⟨"B", "", 0, 0, none, none, none, none⟩

def sampleC : Job := ⟨"C", "", 0, 0, none, none, none, none⟩

/-- Fresh enqueue followed by three dequeue → fail(retry=true, maxRetries=2)
cycles — the scenario of P3. -/
def opsRetryBudget : List Op :=
  [Op.enqueue sampleA 0, Op.dequeue 1, Op.fail "A" "boom" none true 2 2,
   Op.dequeue 3, Op.fail "A" "boom" none true 2 4,
   Op.dequeue 5, Op.fail "A" "boom" none true 2 6]

/-- Enqueue an id, dequeue it, enqueue the same id again — `add_job` only
checks the queued partition for duplicates, so the second enqueue succeeds. -/
def opsDupEnqueue : List Op :=
  [Op.enqueue sampleA 0, Op.dequeue 1, Op.enqueue sampleA 2]

/-- The ids returned by successive dequeues at the given times. -/
def dequeueIds : QueueState → List Nat → List (Option String)
  | _, [] => []
  | st, t :: ts =>
    (Prod.fst (get_next_job st t)).map Job.id ::
      dequeueIds (Prod.snd (get_next_job st t)) ts

/-! ### Claim C1 -/

/-- C1, as stated, is false on the code: with `maxRetries = 2`, after three
dequeue→fail(retry=true) cycles the job sits in Failed with `attempts = 2`,
not `attempts = 3` — the code increments `attempts` only on a
fail-with-retry, never on the final failing call. -/
theorem C1_counterexample :
    attemptsOf (run initState opsRetryBudget) "A" = some 2 ∧
    attemptsOf (run initState opsRetryBudget) "A" ≠ some 3 := by decide

/-- C1 (amended): with `maxRetries = 2`, starting from a fresh enqueue, the
job is dequeued three times (= maxRetries + 1) in total; after the third
`fail(retry=true)` it sits in Failed with status `"failed"` and
`attempts = 2`, the queued and processing partitions are empty, and a fourth
`fail(retry=true)` call returns `false` because the job is no longer in
Processing. -/
theorem C1_retry_budget :
    ((get_next_job (run initState (opsRetryBudget.take 1)) 1).1.map Job.id =
      some "A") ∧
    ((get_next_job (run initState (opsRetryBudget.take 3)) 3).1.map Job.id =
      some "A") ∧
    ((get_next_job (run initState (opsRetryBudget.take 5)) 5).1.map Job.id =
      some "A") ∧
    (run initState opsRetryBudget).queued = [] ∧
    (run initState opsRetryBudget).processing = [] ∧
    ((run initState opsRetryBudget).failed.map
      (fun j => (j.id, j.status, j.attempts)) = [("A", "failed", 2)]) ∧
    (mark_job_failed (run initState opsRetryBudget) "A" "boom" none true 2
      7).1 = false := by decide

/-! ### Claim C3 -/

/-- C3, as stated, is false on the code: `add_job` checks for duplicate ids
only in the queued partition, so enqueue `A`, dequeue, enqueue `A` again
leaves the id `A` in both the queued and the processing partition. -/
theorem C3_counterexample :
    (run initState opsDupEnqueue).queued.map Job.id = ["A"] ∧
    (run initState opsDupEnqueue).processing.map Job.id = ["A"] ∧
    ¬ uniqueIds (run initState opsDupEnqueue) := by decide

/-- C3 (amended): after every completed operation of any sequence of
enqueue, dequeue, complete, fail and flagForReview calls **in which every
enqueue uses an (effective) id not already present outside the Queued
partition**, no id is present in more than one partition — the concatenated
id list of all five partitions stays duplicate-free.  (Unrestricted
enqueues break the invariant, as the counterexample shows.) -/
theorem C3_uniqueness (pre suf : List Op)
    (h : safeTrace initState (pre ++ suf) = true) :
    uniqueIds (run initState pre) :=
  run_unique (by decide) (safeTrace_append_left h)

theorem C3_uniqueness_witness :
    safeTrace initState
      ([Op.enqueue sampleA 0, Op.dequeue 1] ++ [Op.complete "A" none 2]) =
      true ∧
    uniqueIds (run initState [Op.enqueue sampleA 0, Op.dequeue 1]) :=
  ⟨by decide, C3_uniqueness [Op.enqueue sampleA 0, Op.dequeue 1]
    [Op.complete "A" none 2] (by decide)⟩

/-! ### Claim C4 -/

/-- C4: strict FIFO — after enqueuing three jobs with distinct non-empty
ids (and no other operations), successive dequeues return them in enqueue
order and then `none`; dequeue on an empty Queued partition returns `none`
and leaves the state unchanged. -/
theorem C4_fifo (a b c : Job) (ha : a.id ≠ "") (hb : b.id ≠ "")
    (hc : c.id ≠ "") (hab : a.id ≠ b.id) (hac : a.id ≠ c.id)
    (hbc : b.id ≠ c.id) :
    dequeueIds
      (run initState [Op.enqueue a 0, Op.enqueue b 1, Op.enqueue c 2])
      [3, 4, 5, 6] =
      [some a.id, some b.id, some c.id, none] ∧
    get_next_job initState 0 = (none, initState) := by
  constructor
  · simp only [run, List.foldl, step]
    simp only [add_job, effectiveId, if_neg ha, if_neg hb, if_neg hc,
      initState]
    simp [dequeueIds, get_next_job, hab, hac, hbc, Ne.symm hab, Ne.symm hac,
      Ne.symm hbc]
  · rfl

theorem C4_fifo_witness :
    (sampleA.id ≠ "" ∧ sampleB.id ≠ "" ∧ sampleC.id ≠ "" ∧
      sampleA.id ≠ sampleB.id ∧ sampleA.id ≠ sampleC.id ∧
      sampleB.id ≠ sampleC.id) ∧
    dequeueIds
      (run initState
        [Op.enqueue sampleA 0, Op.enqueue sampleB 1, Op.enqueue sampleC 2])
      [3, 4, 5, 6] =
      [some sampleA.id, some sampleB.id, some sampleC.id, none] ∧
    get_next_job initState 0 = (none, initState) :=
  ⟨by decide, C4_fifo sampleA sampleB sampleC (by decide) (by decide)
    (by decide) (by decide) (by decide) (by decide)⟩

/-! ### Claim C5 -/

/-- C5, as stated, is false on the code: the duplicate check of `add_job`
scans only the queued partition.  With id `A` sitting in the processing
partition, enqueue of a record with id `A` returns `true` (and appends it)
instead of being a no-op returning `false`. -/
theorem C5_counterexample :
    (run initState [Op.enqueue sampleA 0, Op.dequeue 1]).processing.map
      Job.id = ["A"] ∧
    (add_job (run initState [Op.enqueue sampleA 0, Op.dequeue 1]) sampleA
      2).1 = true := by decide

/-- C5 (amended): enqueue of a record whose effective id already exists in
the **Queued partition only** is a no-op that returns false; when the id is
absent from Queued — even if present in one of the other four partitions —
the record is appended to Queued with status `"queued"` and `attempts = 0`,
and enqueue returns true. -/
theorem C5_duplicate_check (st : QueueState) (jobData : Job) (now : Nat) :
    ((∃ q ∈ st.queued, q.id = effectiveId jobData now) →
      add_job st jobData now = (false, st)) ∧
    ((∀ q ∈ st.queued, q.id ≠ effectiveId jobData now) →
      add_job st jobData now =
        (true, { st with
          queued := st.queued ++
            [{ jobData with
                id := effectiveId jobData now, status := "queued",
                attempts := 0, addedTimestamp := now }] })) := by
  constructor
  · rintro ⟨q, hq, hid⟩
    apply add_job_dup
    rw [List.any_eq_true]
    exact ⟨q, hq, by simp [hid]⟩
  · intro h
    apply add_job_fresh
    rw [List.any_eq_false]
    intro q hq
    simp [h q hq]

theorem C5_duplicate_check_witness :
    (∃ q ∈ (run initState [Op.enqueue sampleA 0]).queued,
      q.id = effectiveId sampleA 1) ∧
    add_job (run initState [Op.enqueue sampleA 0]) sampleA 1 =
      (false, run initState [Op.enqueue sampleA 0]) :=
  ⟨by decide,
    (C5_duplicate_check (run initState [Op.enqueue sampleA 0]) sampleA 1).1
      (by decide)⟩

/-! ### Claim C6 -/

/-- Enqueue `A` and `B`, dequeue `A`, fail `A` with retry — the P5
scenario. -/
def opsTailRetry : List Op :=
  [Op.enqueue sampleA 0, Op.enqueue sampleB 1, Op.dequeue 2,
   Op.fail "A" "boom" none true 2 3]

/-- The record of job `A` as it sits in the processing partition after
enqueue `A` at 0, enqueue `B` at 1, dequeue at 2. -/
def procA : Job := ⟨"A", "processing", 0, 0, some 2, none, none, none⟩

/-- C6, as stated, is false on the code: the retry path of
`mark_job_failed` never clears `start_processing_timestamp` — after
enqueue A, enqueue B, dequeue A (at time 2), fail A with retry, the
re-queued record still carries `startedAt = 2` instead of having it
cleared. -/
theorem C6_counterexample :
    (findJob (run initState opsTailRetry) "A").map
      Job.startProcessingTimestamp = some (some 2) ∧
    (findJob (run initState opsTailRetry) "A").map
      Job.startProcessingTimestamp ≠ some none := by decide

/-- C6 (amended): for a job in Processing with `attempts` below the retry
budget, `fail(…, retry=true)` removes it from Processing, appends the
updated record at the **tail** of the Queued partition, sets its status to
`"queued"`, sets `lastError`, and returns `true`; but `startedAt` and
`endedAt` keep their previous values — they are **not** cleared.
Consequently (P5) after enqueue A, enqueue B, dequeue A, fail A with retry,
the next dequeue returns B, not A. -/
theorem C6_fail_retry_tail {st : QueueState} {jid : String}
    (reason : String) (d : Option Dict) {j0 : Job} {restP : List Job}
    {mr : Nat} (now : Nat)
    (h : extractJob jid st.processing = some (j0, restP))
    (hlt : j0.attempts < mr) :
    ((mark_job_failed st jid reason d true mr now).1 = true ∧
     (mark_job_failed st jid reason d true mr now).2.processing = restP ∧
     (mark_job_failed st jid reason d true mr now).2.queued =
       st.queued ++
         [{ j0 with
             lastErrorReason := some reason,
             resultDetails := mergeFailDetails j0 d,
             attempts := j0.attempts + 1, status := "queued" }] ∧
     ({ j0 with
         lastErrorReason := some reason,
         resultDetails := mergeFailDetails j0 d,
         attempts := j0.attempts + 1,
         status := "queued" } : Job).startProcessingTimestamp =
       j0.startProcessingTimestamp ∧
     ({ j0 with
         lastErrorReason := some reason,
         resultDetails := mergeFailDetails j0 d,
         attempts := j0.attempts + 1,
         status := "queued" } : Job).endProcessingTimestamp =
       j0.endProcessingTimestamp) ∧
    ((get_next_job (run initState opsTailRetry) 4).1.map Job.id =
      some "B") := by
  constructor
  · rw [mark_job_failed_retry reason d now h hlt]
    exact ⟨rfl, rfl, rfl, rfl, rfl⟩
  · decide

theorem C6_fail_retry_tail_witness :
    extractJob "A" (run initState (opsTailRetry.take 3)).processing =
      some (procA, []) ∧
    procA.attempts < 2 ∧
    (mark_job_failed (run initState (opsTailRetry.take 3)) "A" "boom" none
      true 2 3).1 = true :=
  ⟨by decide, by decide,
    ((C6_fail_retry_tail "boom" none 3
      (show extractJob "A"
          (run initState (opsTailRetry.take 3)).processing =
          some (procA, []) by decide)
      (show procA.attempts < 2 by decide)).1).1⟩

/-! ### Claim C7 -/

/-- C7: `complete(id, …)` when `id` is not in the Processing partition (for
example because a prior call already moved it to Completed) returns `false`
and leaves the whole state — every partition — unchanged. -/
theorem C7_complete_idempotent (st : QueueState) (jid : String)
    (d : Option Dict) (now : Nat) (h : ∀ j ∈ st.processing, j.id ≠ jid) :
    mark_job_complete st jid d now = (false, st) :=
  mark_job_complete_none d now (extractJob_eq_none.mpr h)

theorem C7_complete_idempotent_witness :
    (∀ j ∈ (run initState
      [Op.enqueue sampleA 0, Op.dequeue 1, Op.complete "A" none 2]).processing,
      j.id ≠ "A") ∧
    mark_job_complete
      (run initState
        [Op.enqueue sampleA 0, Op.dequeue 1, Op.complete "A" none 2])
      "A" none 3 =
      (false, run initState
        [Op.enqueue sampleA 0, Op.dequeue 1, Op.complete "A" none 2]) :=
  ⟨by decide, C7_complete_idempotent _ "A" none 3 (by decide)⟩

/-! ### Claim C9 -/

/-- On a processing list whose records all carry a non-zero
`start_processing_timestamp`, the stale scan collects exactly the ids of
records started strictly more than `threshold` ago. -/
theorem staleIds_filter (now threshold : Nat) (l : List Job)
    (h : ∀ j ∈ l, j.startProcessingTimestamp.getD 0 ≠ 0) :
    staleIds now threshold l =
      (l.filter fun j =>
        decide ((threshold : Int) <
          (now : Int) - ((j.startProcessingTimestamp.getD 0 : Nat) : Int))).map
        Job.id := by
  induction l with
  | nil => rfl
  | cons j rest ih =>
    have hj := h j (List.mem_cons_self _ _)
    have ihr := ih fun x hx => h x (List.mem_cons_of_mem _ hx)
    cases ht : j.startProcessingTimestamp with
    | none => rw [ht] at hj; simp at hj
    | some t =>
      rw [ht] at hj
      simp only [Option.getD_some] at hj
      by_cases hcond : (threshold : Int) < (now : Int) - (t : Int)
      · simp [staleIds, ht, hj, hcond, List.filter_cons, ihr]
      · simp [staleIds, ht, hj, hcond, List.filter_cons, ihr]

/-- C9: `staleScan` mutates no partition — the state it returns is the very
state it was given, so every flagged job remains in Processing — and (when
every processing record carries a positive `startedAt`, as every dequeued
job does) it returns exactly the ids of processing jobs with
`now - startedAt > threshold`, a strict inequality: in the P7 scenario a
job dequeued at time 100 is not reported at time 130 with threshold 60,
is reported at time 161, and still sits in Processing afterwards. -/
theorem C9_stale_scan (st : QueueState) (threshold now : Nat) :
    (check_stale_processing_jobs st threshold now).2 = st ∧
    ((∀ j ∈ st.processing, j.startProcessingTimestamp.getD 0 ≠ 0) →
      (check_stale_processing_jobs st threshold now).1 =
        (st.processing.filter fun j =>
          decide ((threshold : Int) <
            (now : Int) -
              ((j.startProcessingTimestamp.getD 0 : Nat) : Int))).map
          Job.id) ∧
    (check_stale_processing_jobs
      (run initState [Op.enqueue sampleA 0, Op.dequeue 100]) 60 130).1 =
      [] ∧
    (check_stale_processing_jobs
      (run initState [Op.enqueue sampleA 0, Op.dequeue 100]) 60 161).1 =
      ["A"] ∧
    (check_stale_processing_jobs
      (run initState [Op.enqueue sampleA 0, Op.dequeue 100]) 60
      161).2.processing.map Job.id = ["A"] := by
  refine ⟨rfl, ?_, by decide, by decide, by decide⟩
  intro h
  exact staleIds_filter now threshold st.processing h

theorem C9_stale_scan_witness :
    (∀ j ∈ (run initState
        [Op.enqueue sampleA 0, Op.dequeue 100]).processing,
      j.startProcessingTimestamp.getD 0 ≠ 0) ∧
    (check_stale_processing_jobs
      (run initState [Op.enqueue sampleA 0, Op.dequeue 100]) 60 161).1 =
      ((run initState
        [Op.enqueue sampleA 0, Op.dequeue 100]).processing.filter fun j =>
          decide ((60 : Int) <
            (161 : Int) -
              ((j.startProcessingTimestamp.getD 0 : Nat) : Int))).map
        Job.id :=
  ⟨by decide,
    (C9_stale_scan (run initState [Op.enqueue sampleA 0, Op.dequeue 100])
      60 161).2.1 (by decide)⟩

/-! ### Claim C10 -/

/-- A record with no id at all, as a caller may enqueue it. -/
def sampleNoId : Job := ⟨"", "", 0, 0, none, none, none, none⟩

/-- C10: enqueue of a record with an empty (missing) id does not fail: the
id `job_<millisecond-timestamp>` is generated for it and — provided that
generated id is not already queued — the record is enqueued exactly like a
normal one, so a caller-supplied id is never required. -/
theorem C10_generated_id (st : QueueState) (jobData : Job) (now : Nat)
    (hid : jobData.id = "")
    (hfree : ∀ q ∈ st.queued, q.id ≠ genId now) :
    effectiveId jobData now = genId now ∧
    add_job st jobData now =
      (true, { st with
        queued := st.queued ++
          [{ jobData with
              id := genId now, status := "queued", attempts := 0,
              addedTimestamp := now }] }) := by
  have he : effectiveId jobData now = genId now := if_pos hid
  refine ⟨he, ?_⟩
  have hq : st.queued.any (fun q => q.id == effectiveId jobData now) =
      false := by
    rw [List.any_eq_false]
    intro q hqm
    simp [he, hfree q hqm]
  rw [add_job_fresh hq, he]

theorem C10_generated_id_witness :
    sampleNoId.id = "" ∧ (∀ q ∈ initState.queued, q.id ≠ genId 5) ∧
    (effectiveId sampleNoId 5 = genId 5 ∧
      add_job initState sampleNoId 5 =
        (true, { initState with
          queued := initState.queued ++
            [{ sampleNoId with
                id := genId 5, status := "queued", attempts := 0,
                addedTimestamp := 5 }] })) :=
  ⟨rfl, by decide, C10_generated_id initState sampleNoId 5 rfl (by decide)⟩

/-! ### Dictionary lemmas for claim C8 -/

theorem find_map_overwrite_ne (d : Dict) (k v k2 : String) (h : k ≠ k2) :
    ((d.map (fun p => if p.fst == k then (k, v) else p)).find?
      (fun p => p.fst == k2)).map (fun p => p.snd) =
    (d.find? (fun p => p.fst == k2)).map (fun p => p.snd) := by
  induction d with
  | nil => rfl
  | cons p rest ih =>
    by_cases hp : (p.fst == k) = true
    · have hpk : p.fst = k := by simpa using hp
      have hk2 : (((k, v) : String × String).fst == k2) = false := by
        simpa using h
      have hp2 : (p.fst == k2) = false := by simpa [hpk] using h
      rw [List.map_cons, if_pos hp, List.find?_cons, List.find?_cons]
      simp only [hk2, hp2]
      exact ih
    · rw [List.map_cons, if_neg hp, List.find?_cons, List.find?_cons]
      cases hf : (p.fst == k2) with
      | true => simp only [hf]
      | false =>
        simp only [hf]
        exact ih

theorem dictGet_dictSet_ne (d : Dict) (k v k2 : String) (h : k ≠ k2) :
    dictGet (dictSet d k v) k2 = dictGet d k2 := by
  simp only [dictGet, dictSet]
  split
  · exact find_map_overwrite_ne d k v k2 h
  · rw [List.find?_append]
    have h2 : ([(k, v)].find? fun p => p.fst == k2) = none := by
      simp [h]
    rw [h2]
    simp

theorem dictGet_dictUpdate_not_key (dold d : Dict) (k : String)
    (h : ∀ p ∈ d, p.fst ≠ k) :
    dictGet (dictUpdate dold d) k = dictGet dold k := by
  induction d generalizing dold with
  | nil => rfl
  | cons p rest ih =>
    rw [dictUpdate, List.foldl_cons]
    have step1 := ih (dictSet dold p.fst p.snd)
      fun q hq => h q (List.mem_cons_of_mem _ hq)
    rw [dictUpdate] at step1
    rw [step1,
      dictGet_dictSet_ne dold p.fst p.snd k (h p (List.mem_cons_self _ _))]

theorem dictSet_ne_nil (d : Dict) (k v : String) : dictSet d k v ≠ [] := by
  rw [dictSet]
  split
  · rename_i hany
    intro hc
    rw [List.map_eq_nil_iff] at hc
    subst hc
    simp at hany
  · simp

theorem dictUpdate_ne_nil (dold d : Dict) (h : dold ≠ []) :
    dictUpdate dold d ≠ [] := by
  induction d generalizing dold with
  | nil => exact h
  | cons p rest ih =>
    rw [dictUpdate, List.foldl_cons]
    exact ih _ (dictSet_ne_nil dold p.fst p.snd)

theorem mergeFailDetails_some {j0 : Job} {dold : Dict}
    (h : j0.resultDetails = some dold) (d : Dict) :
    mergeFailDetails j0 (some d) = some (dictUpdate dold d) := by
  rw [mergeFailDetails]
  by_cases hd : d.isEmpty
  · have : d = [] := by simpa [List.isEmpty_iff] using hd
    subst this
    simp [hd, h, dictUpdate]
  · simp [hd, h]

theorem passedDetails_of_some {j0 : Job} {d : Option Dict} {m : Dict}
    (h : mergeFailDetails j0 d = some m) :
    passedDetails j0 d = some m := by
  rw [passedDetails, h]

/-! ### Claim C8 -/

/-- Enqueue `A`, dequeue it, fail it with retry storing `{"a": "1"}`, then
dequeue again and complete it with `{"b": "2"}`. -/
def opsOverwrite : List Op :=
  [Op.enqueue sampleA 0, Op.dequeue 1,
   Op.fail "A" "boom" (some [("a", "1")]) true 2 2,
   Op.dequeue 3, Op.complete "A" (some [("b", "2")]) 4]

/-- C8, as stated, is false on the code: an earlier fail stored
`{"a": "1"}` in the job's result map, but a later `complete` with
`{"b": "2"}` **overwrites** the map wholesale — the `"a"` entry is gone
from the completed record, so the result map is not merged across
finalizing calls. -/
theorem C8_counterexample :
    ((findJob (run initState (opsOverwrite.take 3)) "A").map
      Job.resultDetails = some (some [("a", "1")])) ∧
    ((findJob (run initState opsOverwrite) "A").map Job.resultDetails =
      some (some [("b", "2")])) ∧
    ((findJob (run initState opsOverwrite) "A").map
      (fun j => dictGet (j.resultDetails.getD []) "a") = some none) := by
  decide

/-- C8 (amended): only `fail` merges the caller-supplied details into the
job's existing result map — the merge preserves every entry whose key the
new details do not mention; `complete` overwrites the stored result
wholesale with the supplied map, and `flagForReview` overwrites it
wholesale with `{review_reason: reason}` updated with the supplied details
— in both cases whatever result earlier calls stored is discarded.
`lastError` is set to the supplied reason in the persisted record only on
the **retry** path of `fail`: the permanently-failed record keeps its
previous `lastError` (the in-memory update is never written back) while
still carrying the merged details, and `complete`/`flagForReview` leave
`lastError` untouched. -/
theorem C8_result_accumulation :
    (∀ (st : QueueState) (jid reason : String) (d dold : Dict) (j0 : Job)
        (restP : List Job) (mr now : Nat),
      extractJob jid st.processing = some (j0, restP) →
      j0.resultDetails = some dold → j0.attempts < mr →
      (mark_job_failed st jid reason (some d) true mr now).2.queued =
        st.queued ++
          [{ j0 with
              lastErrorReason := some reason,
              resultDetails := some (dictUpdate dold d),
              attempts := j0.attempts + 1, status := "queued" }]) ∧
    (∀ (dold d : Dict) (k : String), (∀ p ∈ d, p.fst ≠ k) →
      dictGet (dictUpdate dold d) k = dictGet dold k) ∧
    (∀ (st : QueueState) (jid : String) (d : Dict) (j : Job)
        (rest : List Job) (now : Nat),
      extractJob jid st.processing = some (j, rest) → d ≠ [] →
      (mark_job_complete st jid (some d) now).2.completed =
        st.completed ++ [moveRecord j "completed" (some d) now] ∧
      (moveRecord j "completed" (some d) now).resultDetails = some d ∧
      (moveRecord j "completed" (some d) now).lastErrorReason =
        j.lastErrorReason) ∧
    (∀ (st : QueueState) (jid reason : String) (d dold : Dict) (j0 : Job)
        (restP : List Job) (mr now : Nat),
      extractJob jid st.processing = some (j0, restP) →
      j0.resultDetails = some dold → dold ≠ [] →
      (mark_job_failed st jid reason (some d) false mr now).2.failed =
        st.failed ++
          [moveRecord j0 "failed" (some (dictUpdate dold d)) now] ∧
      (moveRecord j0 "failed" (some (dictUpdate dold d)) now).lastErrorReason
        = j0.lastErrorReason ∧
      (moveRecord j0 "failed" (some (dictUpdate dold d)) now).resultDetails
        = some (dictUpdate dold d)) ∧
    (∀ (st : QueueState) (jid reason : String) (d : Option Dict) (j : Job)
        (rest : List Job) (now : Nat),
      extractJob jid st.processing = some (j, rest) →
      (mark_job_needs_review st jid reason d now).2.review =
        st.review ++
          [moveRecord j "needs_review"
            (some (dictUpdate [("review_reason", reason)] (truthyDict d)))
            now] ∧
      (moveRecord j "needs_review"
        (some (dictUpdate [("review_reason", reason)] (truthyDict d)))
        now).resultDetails =
        some (dictUpdate [("review_reason", reason)] (truthyDict d)) ∧
      (moveRecord j "needs_review"
        (some (dictUpdate [("review_reason", reason)] (truthyDict d)))
        now).lastErrorReason = j.lastErrorReason) := by
  refine ⟨?_, dictGet_dictUpdate_not_key, ?_, ?_, ?_⟩
  · intro st jid reason d dold j0 restP mr now hext hold hlt
    rw [mark_job_failed_retry reason (some d) now hext hlt,
      mergeFailDetails_some hold d]
  · intro st jid d j rest now hext hd
    rw [mark_job_complete_some (some d) now hext]
    exact ⟨rfl, moveRecord_result j "completed" d now hd,
      moveRecord_lastError _ _ _ _⟩
  · intro st jid reason d dold j0 restP mr now hext hold hne
    have hpass : passedDetails j0 (some d) = some (dictUpdate dold d) :=
      passedDetails_of_some (mergeFailDetails_some hold d)
    have heq := mark_job_failed_perm reason (some d) false mr now hext
      (Bool.false_and _)
    rw [hpass] at heq
    rw [heq]
    exact ⟨rfl, moveRecord_lastError _ _ _ _,
      moveRecord_result j0 "failed" (dictUpdate dold d) now
        (dictUpdate_ne_nil dold d hne)⟩
  · intro st jid reason d j rest now hext
    rw [mark_job_needs_review_some reason d now hext]
    exact ⟨rfl,
      moveRecord_result j "needs_review"
        (dictUpdate [("review_reason", reason)] (truthyDict d)) now
        (dictUpdate_ne_nil _ _ (by simp)),
      moveRecord_lastError _ _ _ _⟩

/-- The record of job `A` in the processing partition after enqueue at 0,
dequeue at 1, fail-with-retry at 2 storing `{"a": "1"}`, dequeue at 3. -/
def procA2 : Job :=
  ⟨"A", "processing", 1, 0, some 3, none, some "boom", some [("a", "1")]⟩

theorem C8_result_accumulation_witness :
    extractJob "A" (run initState (opsOverwrite.take 4)).processing =
      some (procA2, []) ∧
    procA2.resultDetails = some [("a", "1")] ∧
    ([("a", "1")] : Dict) ≠ [] ∧
    (mark_job_failed (run initState (opsOverwrite.take 4)) "A" "late"
      (some [("c", "3")]) false 2 9).2.failed =
      (run initState (opsOverwrite.take 4)).failed ++
        [moveRecord procA2 "failed"
          (some (dictUpdate [("a", "1")] [("c", "3")])) 9] :=
  ⟨by decide, by decide, by decide,
    (C8_result_accumulation.2.2.2.1 (run initState (opsOverwrite.take 4))
      "A" "late" [("c", "3")] [("a", "1")] procA2 [] 2 9 (by decide)
      (by decide) (by decide)).1⟩

/-! ### Claim C2 -/

/-- C2, as stated, is false on the code: `get_next_job` does **not**
increment `attempts` — after one enqueue and one dequeue the record sits in
Processing with `attempts = 0`, not `1`. -/
theorem C2_counterexample :
    attemptsOf (run initState [Op.enqueue sampleA 0, Op.dequeue 1]) "A" =
      some 0 ∧
    attemptsOf (run initState [Op.enqueue sampleA 0, Op.dequeue 1]) "A" ≠
      some 1 := by decide

/-- C2 (amended): on a store with unique ids, (i) `attempts` is
monotonically non-decreasing across every operation whose enqueues use
fresh ids; (ii) a successful enqueue stores the record with
`attempts = 0`; (iii) dequeue leaves every record's `attempts` unchanged;
(iv) `fail(retry=true)` within the retry budget increments the failed
job's `attempts` by exactly one; (v)–(vii) complete, flagForReview and
`fail(retry=false)` leave every record's `attempts` unchanged — so the
counter increases exactly once per fail-with-retry, not per dequeue. -/
theorem C2_attempts_evolution (st : QueueState) (hnd : uniqueIds st) :
    (∀ op, enqFresh st op = true → ∀ jid a b,
      attemptsOf st jid = some a → attemptsOf (step st op) jid = some b →
      a ≤ b) ∧
    (∀ jobData now, (add_job st jobData now).1 = true →
      attemptsOf ((add_job st jobData now).2) (effectiveId jobData now) =
        some 0) ∧
    (∀ now x, attemptsOf ((get_next_job st now).2) x = attemptsOf st x) ∧
    (∀ jid r d mr now j0 restP,
      extractJob jid st.processing = some (j0, restP) → j0.attempts < mr →
      attemptsOf st jid = some j0.attempts ∧
      attemptsOf ((mark_job_failed st jid r d true mr now).2) jid =
        some (j0.attempts + 1)) ∧
    (∀ jid d now x,
      attemptsOf ((mark_job_complete st jid d now).2) x = attemptsOf st x) ∧
    (∀ jid r d now x,
      attemptsOf ((mark_job_needs_review st jid r d now).2) x =
        attemptsOf st x) ∧
    (∀ jid r d mr now x,
      attemptsOf ((mark_job_failed st jid r d false mr now).2) x =
        attemptsOf st x) := by
  refine ⟨?_, fun jobData now h => add_attempts_zero h,
    fun now x => deq_attempts hnd now x,
    ?_,
    fun jid d now x => complete_attempts hnd jid d now x,
    fun jid r d now x => review_attempts hnd jid r d now x,
    fun jid r d mr now x => fail_false_attempts hnd jid r d mr now x⟩
  · intro op hf jid a b ha hb
    cases op with
    | enqueue jobData now =>
      by_cases hq : st.queued.any
          (fun q => q.id == effectiveId jobData now) = true
      · have hstep : step st (Op.enqueue jobData now) = st := by
          simp [step, add_job_dup hq]
        rw [hstep, ha] at hb
        exact le_of_eq (Option.some.inj hb)
      · have hq' := eq_false_of_ne_true hq
        have hf' : idElsewhere st (effectiveId jobData now) = false := by
          have : (!idElsewhere st (effectiveId jobData now)) = true := hf
          simpa using this
        obtain ⟨h1, hnone, h2, h3⟩ := enqueue_core hq' hf' hnd
        by_cases hx : jid = effectiveId jobData now
        · subst hx
          rw [attemptsOf, hnone] at ha
          simp at ha
        · have hsame := h3 jid hx
          simp only [step] at hb
          rw [attemptsOf, hsame, ← attemptsOf, ha] at hb
          exact le_of_eq (Option.some.inj hb)
    | dequeue now =>
      simp only [step] at hb
      rw [deq_attempts hnd now jid, ha] at hb
      exact le_of_eq (Option.some.inj hb)
    | complete jid2 d now =>
      simp only [step] at hb
      rw [complete_attempts hnd jid2 d now jid, ha] at hb
      exact le_of_eq (Option.some.inj hb)
    | flagForReview jid2 r d now =>
      simp only [step] at hb
      rw [review_attempts hnd jid2 r d now jid, ha] at hb
      exact le_of_eq (Option.some.inj hb)
    | fail jid2 r d retry mr now =>
      cases retry with
      | false =>
        simp only [step] at hb
        rw [fail_false_attempts hnd jid2 r d mr now jid, ha] at hb
        exact le_of_eq (Option.some.inj hb)
      | true =>
        cases hx : extractJob jid2 st.processing with
        | none =>
          have hstep : step st (Op.fail jid2 r d true mr now) = st := by
            simp [step, mark_job_failed_none r d true mr now hx]
          rw [hstep, ha] at hb
          exact le_of_eq (Option.some.inj hb)
        | some pr =>
          obtain ⟨j0, restP⟩ := pr
          by_cases hlt : j0.attempts < mr
          · obtain ⟨hA, hB, hC⟩ := fail_retry_attempts hnd r d now hx hlt
            by_cases hxx : jid = jid2
            · subst hxx
              rw [ha] at hA
              simp only [step] at hb
              rw [hB] at hb
              have ha' : a = j0.attempts := Option.some.inj hA
              have hb' : b = j0.attempts + 1 := Option.some.inj hb.symm
              omega
            · simp only [step] at hb
              rw [hC jid hxx, ha] at hb
              exact le_of_eq (Option.some.inj hb)
          · have hc : (true && decide (j0.attempts < mr)) = false := by
              simp [hlt]
            obtain ⟨h1, h2, h3, h4⟩ := fail_perm_core r d true mr now hx hc
              hnd
            by_cases hxx : jid = j0.id
            · subst hxx
              rw [attemptsOf, h2] at ha
              simp only [step] at hb
              rw [attemptsOf, h3] at hb
              have ha' : j0.attempts = a := by simpa using ha
              have hb' :
                  (moveRecord j0 "failed" (passedDetails j0 d) now).attempts
                    = b := by simpa using hb
              rw [moveRecord_attempts] at hb'
              omega
            · simp only [step] at hb
              rw [attemptsOf, h4 jid hxx, ← attemptsOf, ha] at hb
              exact le_of_eq (Option.some.inj hb)
  · intro jid r d mr now j0 restP hext hlt
    obtain ⟨hA, hB, hC⟩ := fail_retry_attempts hnd r d now hext hlt
    exact ⟨hA, hB⟩

theorem C2_attempts_evolution_witness :
    uniqueIds (run initState [Op.enqueue sampleA 0]) ∧
    attemptsOf
      ((get_next_job (run initState [Op.enqueue sampleA 0]) 5).2) "A" =
      attemptsOf (run initState [Op.enqueue sampleA 0]) "A" :=
  ⟨by decide,
    (C2_attempts_evolution (run initState [Op.enqueue sampleA 0])
      (by decide)).2.2.1 5 "A"⟩

end QueueMgr
